import Mathlib

/-!
Shallow embedding of `esrgan/models/discriminator.py`: the dynamic assembly of
`StridedConvEncoder`, `LinearHead` and `VGGConv` networks.

Layer factories (`conv`, `norm`, `activation`, `linear`, `dropout`, `residual`)
are external callables; the embedding records, for every layer the assembly
creates, the role name it was created under, the positional channel arguments
and the `stride` keyword argument, which is all the assembly logic decides.
Optional factories (`norm`, `dropout`, `residual`) are modelled by a `Bool`
saying whether the corresponding argument was `None` in Python.

Assembly can raise Python exceptions (`KeyError` from the `name2fn` dictionary
lookup, `IndexError` from indexing a too-short channel schedule,
`ZeroDivisionError` from the stride computation `out_ch // in_ch`), so the
constructors return `Except PyErr _`.
-/

namespace Esrgan

/-- Python exceptions that the assembly code in `discriminator.py` can raise. -/
inductive PyErr where
  | keyError (key : String)
  | indexError
  | zeroDivisionError
  deriving DecidableEq, Repr

/-- One layer created during assembly: the role name it was created under
(`"conv"`, `"norm"`, `"activation"`, `"linear"`, …), the positional channel
arguments passed to the factory (`none` when the factory is invoked with no
arguments, as for the stem activation `name2fn["activation"]()`), and the
`stride` keyword argument when one is passed. -/
structure Layer where
  role : String
  chans : Option (Nat × Nat)
  stride : Option Nat
  deriving DecidableEq, Repr

/-- One block of `StridedConvEncoder`: the ordered layers inside the
`nn.Sequential`, plus whether the assembled block was wrapped by the
residual adapter (`block = residual(block)`). -/
structure Block where
  layers : List Layer
  wrapped : Bool
  deriving DecidableEq, Repr

/-- Modelled from the spec: `esrgan.utils.pairwise` is not under `src/`; the
spec describes it as deriving the adjacent pairs of a channel list
("For each subsequent adjacent pair `(in_ch, out_ch)` …", "derive adjacent
pairs"), i.e. `pairwise xs = zip xs xs[1:]`. -/
def pairwise (xs : List Nat) : List (Nat × Nat) :=
  xs.zip xs.tail

/-- Modelled from the spec: `esrgan.utils.create_layer` is not under `src/`;
the spec describes it as resolving a named layer role to a constructible layer
given input/output channel counts and optional extra arguments (here the
`stride` keyword), where a `None`-valued factory means the role is omitted
from the block ("None ⇒ role omitted from block"). The factory itself is
external, so only its presence is modelled. -/
def create_layer (factory : Option Unit) (role : String) (in_channels out_channels : Nat)
    (stride : Option Nat) : Option Layer :=
  factory.map fun _ => ⟨role, some (in_channels, out_channels), stride⟩

/-- The `name2fn` dictionary of `StridedConvEncoder.__init__`: keys
`"activation"`, `"conv"`, `"norm"`; `conv` and `activation` are required
arguments, `norm` may be `None`. A result of `none` models a missing key
(Python `KeyError` on lookup); `some none` a key registered with a `None`
factory. -/
def encoderName2fn (norm_present : Bool) : String → Option (Option Unit)
  | "activation" => some (some ())
  | "conv" => some (some ())
  | "norm" => some (if norm_present then some () else none)
  | _ => none

/-- The body of the inner `for name in layer_order` loop of
`StridedConvEncoder.__init__` for one non-stem pair `(in_ch, out_ch)`:
for `"conv"` the keyword `stride = out_ch // in_ch` is computed first
(raising `ZeroDivisionError` when `in_ch = 0`), then `name2fn[name]` is looked
up (raising `KeyError` for an unregistered role), then `create_layer` builds
the layer, which is appended to the block list when the factory is present. -/
def encoderBlockLayers (norm_present : Bool) (in_ch out_ch : Nat) :
    List String → Except PyErr (List Layer)
  | [] => Except.ok []
  | name :: rest =>
    if name = "conv" ∧ in_ch = 0 then Except.error PyErr.zeroDivisionError
    else
      match encoderName2fn norm_present name with
      | none => Except.error (PyErr.keyError name)
      | some factory =>
        match encoderBlockLayers norm_present in_ch out_ch rest with
        | Except.error e => Except.error e
        | Except.ok ls =>
          let stride := if name = "conv" then some (out_ch / in_ch) else none
          Except.ok ((create_layer factory name in_ch out_ch stride).toList ++ ls)

/-- The outer `for i, (in_ch, out_ch) in enumerate(channels, start=1)` loop of
`StridedConvEncoder.__init__`: each non-stem pair yields one block, wrapped by
the residual adapter exactly when the residual factory is not `None` and
`in_ch == out_ch`. -/
def encoderBlocks (norm_present residual_present : Bool) (layer_order : List String) :
    List (Nat × Nat) → Except PyErr (List Block)
  | [] => Except.ok []
  | p :: ps =>
    match encoderBlockLayers norm_present p.1 p.2 layer_order with
    | Except.error e => Except.error e
    | Except.ok ls =>
      match encoderBlocks norm_present residual_present layer_order ps with
      | Except.error e => Except.error e
      | Except.ok bs => Except.ok (⟨ls, residual_present && (p.1 == p.2)⟩ :: bs)

/-- The assembled `StridedConvEncoder`: the stored channel schedule
(`self._layers`) and the ordered blocks of `self.net`
(`block_0`, `block_1`, …). -/
structure StridedConvEncoder where
  _layers : List Nat
  net : List Block
  deriving DecidableEq, Repr

/-- `StridedConvEncoder.__init__`: the stem block `block_0` is
`conv(layers[0], layers[1])` (no `stride` keyword) followed by `activation()`
(no arguments), regardless of `layer_order`; the remaining blocks are built
from the adjacent pairs of `layers[1:]`. Indexing `layers[0]` / `layers[1]`
raises `IndexError` when the schedule has fewer than two entries. -/
def StridedConvEncoder.build (layers : List Nat) (layer_order : List String)
    (norm_present residual_present : Bool) : Except PyErr StridedConvEncoder :=
  match layers.get? 0, layers.get? 1 with
  | some c0, some c1 =>
    match encoderBlocks norm_present residual_present layer_order (pairwise layers.tail) with
    | Except.error e => Except.error e
    | Except.ok blocks =>
      Except.ok ⟨layers,
        ⟨[⟨"conv", some (c0, c1), none⟩, ⟨"activation", none, none⟩], false⟩ :: blocks⟩
  | _, _ => Except.error PyErr.indexError

/-- `StridedConvEncoder.in_channels`: returns `self._layers[0]`. -/
def StridedConvEncoder.in_channels (e : StridedConvEncoder) : Nat :=
  e._layers.headI

/-- `StridedConvEncoder.out_channels`: returns `self._layers[-1]`. -/
def StridedConvEncoder.out_channels (e : StridedConvEncoder) : Nat :=
  e._layers.getLastD 0

/-- The `name2fn` dictionary of `LinearHead.__init__`: keys `"activation"`,
`"dropout"`, `"linear"`, `"norm"`; `linear` and `activation` are required
arguments, `norm` and `dropout` may be `None`. -/
def headName2fn (norm_present dropout_present : Bool) : String → Option (Option Unit)
  | "activation" => some (some ())
  | "dropout" => some (if dropout_present then some () else none)
  | "linear" => some (some ())
  | "norm" => some (if norm_present then some () else none)
  | _ => none

/-- The body of the inner `for name in layer_order` loop of
`LinearHead.__init__` for one non-final pair `(in_ch, out_ch)`: look up
`name2fn[name]` (raising `KeyError` for an unregistered role) and let
`create_layer` build the layer; no `stride` keyword is ever passed. -/
def headPairLayers (norm_present dropout_present : Bool) (in_ch out_ch : Nat) :
    List String → Except PyErr (List Layer)
  | [] => Except.ok []
  | name :: rest =>
    match headName2fn norm_present dropout_present name with
    | none => Except.error (PyErr.keyError name)
    | some factory =>
      match headPairLayers norm_present dropout_present in_ch out_ch rest with
      | Except.error e => Except.error e
      | Except.ok ls =>
        Except.ok ((create_layer factory name in_ch out_ch none).toList ++ ls)

/-- The outer `for in_ch, out_ch in channels_pairs[:-1]` loop of
`LinearHead.__init__`, flattening the created layers into one list
(the Python code appends modules of all pairs into a single `net` list). -/
def headBody (norm_present dropout_present : Bool) (layer_order : List String) :
    List (Nat × Nat) → Except PyErr (List Layer)
  | [] => Except.ok []
  | p :: ps =>
    match headPairLayers norm_present dropout_present p.1 p.2 layer_order with
    | Except.error e => Except.error e
    | Except.ok ls =>
      match headBody norm_present dropout_present layer_order ps with
      | Except.error e => Except.error e
      | Except.ok rest => Except.ok (ls ++ rest)

/-- The assembled `LinearHead`: the flat layer list of `self.net`
(`nn.Sequential(*net)`). -/
structure LinearHead where
  net : List Layer
  deriving DecidableEq, Repr

/-- `LinearHead.__init__`: build `channels = [in_channels, *latent_channels,
out_channels]`, apply `layer_order` to every adjacent pair except the final
one, then append `name2fn["linear"](*channels_pairs[-1])` — a bare linear
layer with the final pair as positional arguments and no keyword arguments. -/
def LinearHead.build (in_channels out_channels : Nat) (latent_channels : List Nat)
    (layer_order : List String) (norm_present dropout_present : Bool) :
    Except PyErr LinearHead :=
  let channels := in_channels :: (latent_channels ++ [out_channels])
  let channels_pairs := pairwise channels
  match headBody norm_present dropout_present layer_order channels_pairs.dropLast with
  | Except.error e => Except.error e
  | Except.ok body =>
    Except.ok ⟨body ++ [⟨"linear", some (channels_pairs.getLastD (0, 0)), none⟩]⟩

/-- A tensor, modelled as its shape plus an abstract flat data payload.
The number of elements is the product of the shape, as for real tensors. -/
structure Tensor where
  shape : List Nat
  data : List Int
  deriving DecidableEq, Repr

/-- Number of elements of a tensor. -/
def Tensor.numel (t : Tensor) : Nat :=
  t.shape.prod

/-- `t.view(d, -1)`: reshape to two dimensions with the second inferred.
Torch raises an error when the tensor has zero elements (the inferred `-1`
is ambiguous) or when the element count is not divisible by `d`; otherwise
the result has shape `[d, numel / d]` and the same data. -/
def Tensor.view2 (t : Tensor) (d : Nat) : Except String Tensor :=
  if d = 0 ∨ t.numel = 0 ∨ t.numel % d ≠ 0 then Except.error "invalid shape"
  else Except.ok ⟨[d, t.numel / d], t.data⟩

/-- Written from the spec's words, for comparison with the code's
`x.view(x.shape[0], -1)`: "Flatten preserves batch dimension, collapses all
remaining dimensions into one". -/
def flattenBatch (t : Tensor) : Tensor :=
  ⟨[t.shape.headI, t.shape.tail.prod], t.data⟩

/-- The composite classifier `VGGConv`: stores the externally supplied
encoder, pooling and head modules, each an opaque tensor transform. -/
structure VGGConv where
  encoder : Tensor → Tensor
  pool : Tensor → Tensor
  head : Tensor → Tensor

/-- Observable events of `VGGConv`: attribute assignments in `__init__`,
the call of the external initialization routine `utils.net_init_`, the
invocation of a stored submodule, and the `view` reshape. -/
inductive TraceEvent where
  | assignField (field : String)
  | netInitCall
  | callModule (field : String)
  | viewOp
  deriving DecidableEq, Repr

/-- Modelled from the spec (the body of `utils.net_init_` is not under
`src/`; the spec says only that it is "a procedure taking the fully-assembled
network and mutating its parameters in place exactly once"): the statements of
`VGGConv.__init__` in order — the three attribute assignments
`self.encoder = …`, `self.pool = …`, `self.head = …` followed by the single
call `utils.net_init_(self)`. -/
def VGGConv.initTrace : List TraceEvent :=
  [TraceEvent.assignField "encoder", TraceEvent.assignField "pool",
   TraceEvent.assignField "head", TraceEvent.netInitCall]

/-- `VGGConv.forward`: `x = self.pool(self.encoder(x))`, then
`x = x.view(x.shape[0], -1)` (indexing `x.shape[0]` raises on an empty
shape), then `x = self.head(x)`. -/
def VGGConv.forward (m : VGGConv) (x : Tensor) : Except String Tensor :=
  let z := m.pool (m.encoder x)
  match z.shape.head? with
  | none => Except.error "IndexError"
  | some d =>
    match z.view2 d with
    | Except.error e => Except.error e
    | Except.ok v => Except.ok (m.head v)

/-- The statements executed by `VGGConv.forward`, in order: it calls the
stored submodules and reshapes, and contains no call of the initialization
routine. -/
def VGGConv.forwardTrace : List TraceEvent :=
  [TraceEvent.callModule "encoder", TraceEvent.callModule "pool",
   TraceEvent.viewOp, TraceEvent.callModule "head"]

/-! ## Helper lemmas -/

/-- A nonempty list's `getLast?` is its `getLastD`. -/
theorem getLast?_eq_getLastD_of_ne_nil :
    ∀ (l : List Nat), l ≠ [] → l.getLast? = some (l.getLastD 0)
  | [_], _ => rfl
  | a :: b :: t, _ => by
    rw [List.getLast?_cons_cons]
    exact getLast?_eq_getLastD_of_ne_nil (b :: t) (by simp)

/-- Inversion of a successful `StridedConvEncoder.build`: the schedule indexed
without error, the non-stem blocks assembled without error, and the result is
the stored schedule together with the stem block followed by those blocks. -/
theorem build_ok (sched : List Nat) (lo : List String) (np rp : Bool)
    (e : StridedConvEncoder)
    (h : StridedConvEncoder.build sched lo np rp = Except.ok e) :
    ∃ c0 c1 blocks, sched.get? 0 = some c0 ∧ sched.get? 1 = some c1 ∧
      encoderBlocks np rp lo (pairwise sched.tail) = Except.ok blocks ∧
      e = ⟨sched, ⟨[⟨"conv", some (c0, c1), none⟩, ⟨"activation", none, none⟩],
        false⟩ :: blocks⟩ := by
  unfold StridedConvEncoder.build at h
  split at h
  case h_1 c0 c1 h0 h1 =>
    split at h
    · exact absurd h (by simp)
    case h_2 blocks hb =>
      refine ⟨c0, c1, blocks, h0, h1, hb, ?_⟩
      cases h
      rfl
  case h_2 => exact absurd h (by simp)

/-- Positional correspondence for `encoderBlocks`: block `i` of a successful
assembly comes from pair `i`, with the wrapping decision
`residual_present && (in_ch == out_ch)`. -/
theorem encoderBlocks_get (np rp : Bool) (lo : List String) :
    ∀ (ps : List (Nat × Nat)) (bs : List Block),
      encoderBlocks np rp lo ps = Except.ok bs →
      ∀ (i : Nat) (p : Nat × Nat), ps.get? i = some p →
        ∃ ls, encoderBlockLayers np p.1 p.2 lo = Except.ok ls ∧
          bs.get? i = some ⟨ls, rp && (p.1 == p.2)⟩ := by
  intro ps
  induction ps with
  | nil => intro bs _ i p hp; simp at hp
  | cons q qs ih =>
    intro bs h i p hp
    unfold encoderBlocks at h
    split at h
    · exact absurd h (by simp)
    case h_2 ls hls =>
      split at h
      · exact absurd h (by simp)
      case h_2 bs0 hbs0 =>
        cases h
        cases i with
        | zero =>
          simp only [List.get?] at hp
          cases hp
          exact ⟨ls, hls, rfl⟩
        | succ n =>
          simp only [List.get?] at hp
          exact ih bs0 hbs0 n p hp

/-- The `"conv"` key is always registered in the encoder's `name2fn`. -/
theorem encoderName2fn_conv (np : Bool) : encoderName2fn np "conv" = some (some ()) := rfl

/-- The `"activation"` key is always registered in the encoder's `name2fn`. -/
theorem encoderName2fn_activation (np : Bool) :
    encoderName2fn np "activation" = some (some ()) := rfl

/-- The `"norm"` key is registered in the encoder's `name2fn`, with a `None`
factory when the `norm` argument was `None`. -/
theorem encoderName2fn_norm (np : Bool) :
    encoderName2fn np "norm" = some (if np then some () else none) := rfl

/-- With a registered layer order and a nonzero input channel count, the inner
loop of the encoder succeeds; every created layer carries the pair's channels,
every conv layer carries the floor-divided stride `out_ch / in_ch`, and when
`"conv"` occurs in the layer order a conv layer with that stride is present. -/
theorem encoderBlockLayers_ok (np : Bool) (in_ch out_ch : Nat) (hin : in_ch ≠ 0) :
    ∀ lo : List String,
      (∀ n ∈ lo, n = "conv" ∨ n = "norm" ∨ n = "activation") →
      ∃ ls, encoderBlockLayers np in_ch out_ch lo = Except.ok ls ∧
        (∀ l ∈ ls, l.chans = some (in_ch, out_ch) ∧
          (l.role = "conv" → l.stride = some (out_ch / in_ch))) ∧
        ("conv" ∈ lo →
          (⟨"conv", some (in_ch, out_ch), some (out_ch / in_ch)⟩ : Layer) ∈ ls) := by
  intro lo
  induction lo with
  | nil => exact fun _ => ⟨[], rfl, by simp, by simp⟩
  | cons name rest ih =>
    intro hlo
    obtain ⟨ls, hls, hprop, hconv⟩ := ih (fun n hn => hlo n (List.mem_cons_of_mem _ hn))
    have hstep : ∀ factory : Option Unit, encoderName2fn np name = some factory →
        encoderBlockLayers np in_ch out_ch (name :: rest) =
          Except.ok ((create_layer factory name in_ch out_ch
            (if name = "conv" then some (out_ch / in_ch) else none)).toList ++ ls) := by
      intro factory hf
      unfold encoderBlockLayers
      rw [if_neg (fun hc => hin hc.2), hf, hls]
    rcases hlo name (List.mem_cons_self _ _) with hC | hN | hA
    · subst hC
      refine ⟨⟨"conv", some (in_ch, out_ch), some (out_ch / in_ch)⟩ :: ls,
        ?_, ?_, fun _ => List.mem_cons_self _ _⟩
      · rw [hstep (some ()) (encoderName2fn_conv np)]
        simp [create_layer]
      · intro l hl
        rcases List.mem_cons.mp hl with hl | hl
        · subst hl; exact ⟨rfl, fun _ => rfl⟩
        · exact hprop l hl
    · subst hN
      by_cases hnp : np = true
      · refine ⟨⟨"norm", some (in_ch, out_ch), none⟩ :: ls, ?_, ?_, ?_⟩
        · rw [hstep (some ()) (by rw [encoderName2fn_norm, if_pos hnp])]
          simp [create_layer]
        · intro l hl
          rcases List.mem_cons.mp hl with hl | hl
          · subst hl; exact ⟨rfl, fun hr => by simp at hr⟩
          · exact hprop l hl
        · intro hc
          exact List.mem_cons_of_mem _
            (hconv (by rcases List.mem_cons.mp hc with hc | hc
                       · exact absurd hc.symm (by decide)
                       · exact hc))
      · refine ⟨ls, ?_, hprop, ?_⟩
        · rw [hstep none (by rw [encoderName2fn_norm, if_neg hnp])]
          simp [create_layer]
        · intro hc
          exact hconv (by rcases List.mem_cons.mp hc with hc | hc
                          · exact absurd hc.symm (by decide)
                          · exact hc)
    · subst hA
      refine ⟨⟨"activation", some (in_ch, out_ch), none⟩ :: ls, ?_, ?_, ?_⟩
      · rw [hstep (some ()) (encoderName2fn_activation np)]
        simp [create_layer]
      · intro l hl
        rcases List.mem_cons.mp hl with hl | hl
        · subst hl; exact ⟨rfl, fun hr => by simp at hr⟩
        · exact hprop l hl
      · intro hc
        exact List.mem_cons_of_mem _
          (hconv (by rcases List.mem_cons.mp hc with hc | hc
                     · exact absurd hc.symm (by decide)
                     · exact hc))

/-- If the inner loop succeeds on every pair, the outer loop of the encoder
succeeds. -/
theorem encoderBlocks_ok_of (np rp : Bool) (lo : List String) :
    ∀ ps : List (Nat × Nat),
      (∀ p ∈ ps, ∃ ls, encoderBlockLayers np p.1 p.2 lo = Except.ok ls) →
      ∃ bs, encoderBlocks np rp lo ps = Except.ok bs := by
  intro ps
  induction ps with
  | nil => exact fun _ => ⟨[], rfl⟩
  | cons q qs ih =>
    intro hall
    obtain ⟨ls, hls⟩ := hall q (List.mem_cons_self _ _)
    obtain ⟨bs, hbs⟩ := ih (fun p hp => hall p (List.mem_cons_of_mem _ hp))
    refine ⟨⟨ls, rp && (q.1 == q.2)⟩ :: bs, ?_⟩
    unfold encoderBlocks
    rw [hls, hbs]

/-- A well-formed configuration (schedule of length at least two, registered
roles only, nonzero input channels on every non-stem pair) always assembles. -/
theorem build_succeeds (sched : List Nat) (lo : List String) (np rp : Bool)
    (hlen : 2 ≤ sched.length)
    (hlo : ∀ n ∈ lo, n = "conv" ∨ n = "norm" ∨ n = "activation")
    (hpos : ∀ p ∈ pairwise sched.tail, p.1 ≠ 0) :
    ∃ e, StridedConvEncoder.build sched lo np rp = Except.ok e := by
  match sched, hlen, hpos with
  | a :: b :: t, _, hpos =>
    obtain ⟨bs, hbs⟩ := encoderBlocks_ok_of np rp lo (pairwise (b :: t))
      (fun p hp =>
        (encoderBlockLayers_ok np p.1 p.2 (hpos p hp) lo hlo).elim
          (fun ls hh => ⟨ls, hh.1⟩))
    refine ⟨⟨a :: b :: t,
      ⟨[⟨"conv", some (a, b), none⟩, ⟨"activation", none, none⟩], false⟩ :: bs⟩, ?_⟩
    unfold StridedConvEncoder.build
    simp only [List.get?, List.tail_cons]
    rw [hbs]

/-- Unfolding of `LinearHead.build` (definitional). -/
theorem build_head_eq (ic oc : Nat) (lat : List Nat) (lo : List String) (np dp : Bool) :
    LinearHead.build ic oc lat lo np dp =
      match headBody np dp lo (pairwise (ic :: (lat ++ [oc]))).dropLast with
      | Except.error e => Except.error e
      | Except.ok body =>
        Except.ok ⟨body ++
          [⟨"linear", some ((pairwise (ic :: (lat ++ [oc]))).getLastD (0, 0)), none⟩]⟩ := rfl

/-- `pairwise` on two explicit heads (definitional). -/
theorem pairwise_cons_cons (x y : Nat) (t : List Nat) :
    pairwise (x :: y :: t) = (x, y) :: pairwise (y :: t) := rfl

/-- An unregistered role that occurs in the layer order makes the encoder's
inner loop fail. -/
theorem encoderBlockLayers_err (np : Bool) (a b : Nat) (name : String)
    (hreg : encoderName2fn np name = none) :
    ∀ lo : List String, name ∈ lo →
      ∃ err, encoderBlockLayers np a b lo = Except.error err := by
  intro lo
  induction lo with
  | nil => intro hmem; simp at hmem
  | cons n rest ih =>
    intro hmem
    by_cases hcz : n = "conv" ∧ a = 0
    · refine ⟨PyErr.zeroDivisionError, ?_⟩
      unfold encoderBlockLayers
      rw [if_pos hcz]
    · cases hf : encoderName2fn np n with
      | none =>
        refine ⟨PyErr.keyError n, ?_⟩
        unfold encoderBlockLayers
        rw [if_neg hcz, hf]
      | some f =>
        have hname : name ∈ rest := by
          rcases List.mem_cons.mp hmem with h | h
          · subst h; rw [hf] at hreg; exact absurd hreg (by simp)
          · exact h
        obtain ⟨err, herr⟩ := ih hname
        refine ⟨err, ?_⟩
        unfold encoderBlockLayers
        rw [if_neg hcz, hf, herr]

/-- An unregistered role that occurs in the layer order makes the head's
inner loop fail with a `KeyError`. -/
theorem headPairLayers_err (np dp : Bool) (a b : Nat) (name : String)
    (hreg : headName2fn np dp name = none) :
    ∀ lo : List String, name ∈ lo →
      ∃ k, headPairLayers np dp a b lo = Except.error (PyErr.keyError k) := by
  intro lo
  induction lo with
  | nil => intro hmem; simp at hmem
  | cons n rest ih =>
    intro hmem
    cases hf : headName2fn np dp n with
    | none =>
      refine ⟨n, ?_⟩
      unfold headPairLayers
      rw [hf]
    | some f =>
      have hname : name ∈ rest := by
        rcases List.mem_cons.mp hmem with h | h
        · subst h; rw [hf] at hreg; exact absurd hreg (by simp)
        · exact h
      obtain ⟨k, hk⟩ := ih hname
      refine ⟨k, ?_⟩
      unfold headPairLayers
      rw [hf, hk]

/-- A failing first pair makes `headBody` fail. -/
theorem headBody_err (np dp : Bool) (lo : List String) (p : Nat × Nat)
    (ps : List (Nat × Nat)) (err : PyErr)
    (h : headPairLayers np dp p.1 p.2 lo = Except.error err) :
    headBody np dp lo (p :: ps) = Except.error err := by
  unfold headBody
  rw [h]

/-- Encoder half of the amended C5: an unregistered role in the layer order
makes `StridedConvEncoder` construction fail at assembly time as soon as the
schedule yields at least one non-stem block. -/
theorem encoder_unregistered_err (sched : List Nat) (lo : List String) (np rp : Bool)
    (name : String) (hmem : name ∈ lo) (hreg : encoderName2fn np name = none)
    (hlen : 3 ≤ sched.length) :
    ∃ err, StridedConvEncoder.build sched lo np rp = Except.error err := by
  match sched, hlen with
  | a :: b :: c :: t, _ =>
    obtain ⟨err, herr⟩ := encoderBlockLayers_err np b c name hreg lo hmem
    refine ⟨err, ?_⟩
    unfold StridedConvEncoder.build
    simp only [List.get?, List.tail_cons]
    rw [pairwise_cons_cons]
    unfold encoderBlocks
    rw [herr]

/-- Head half of the amended C5: an unregistered role in the layer order makes
`LinearHead` construction fail at assembly time (with a `KeyError`) as soon as
there is at least one latent channel, i.e. one non-final pair. -/
theorem head_unregistered_err (ic oc : Nat) (lat : List Nat) (lo : List String)
    (np dp : Bool) (name : String) (hmem : name ∈ lo)
    (hreg : headName2fn np dp name = none) (hlat : lat ≠ []) :
    ∃ k, LinearHead.build ic oc lat lo np dp = Except.error (PyErr.keyError k) := by
  match lat, hlat with
  | l0 :: lrest, _ =>
    obtain ⟨u, us, huus⟩ : ∃ u us, lrest ++ [oc] = u :: us := by
      cases lrest with
      | nil => exact ⟨oc, [], rfl⟩
      | cons x xs => exact ⟨x, xs ++ [oc], rfl⟩
    obtain ⟨k, hk⟩ := headPairLayers_err np dp ic l0 name hreg lo hmem
    refine ⟨k, ?_⟩
    rw [build_head_eq]
    simp only [List.cons_append]
    rw [huus, pairwise_cons_cons, pairwise_cons_cons]
    simp only [List.dropLast]
    rw [headBody_err np dp lo (ic, l0) _ _ hk]

/-- Counting layers by role in the head's inner loop: for the always-present
roles `"linear"` and `"activation"`, the produced layers contain exactly as
many layers of that role as the layer order has occurrences of it. -/
theorem headPairLayers_count (np dp : Bool) (a b : Nat) (r : String)
    (hr : r = "linear" ∨ r = "activation") :
    ∀ (lo : List String) (ls : List Layer),
      headPairLayers np dp a b lo = Except.ok ls →
      (ls.filter (fun l => l.role == r)).length =
        (lo.filter (fun n => n == r)).length := by
  intro lo
  induction lo with
  | nil =>
    intro ls h
    have h' : Except.ok ([] : List Layer) = Except.ok ls := h
    injection h' with h'
    subst h'
    rfl
  | cons n rest ih =>
    intro ls h
    unfold headPairLayers at h
    split at h
    · exact absurd h (by simp)
    case h_2 factory hf =>
      split at h
      · exact absurd h (by simp)
      case h_2 ls0 hls0 =>
        injection h with h
        subst h
        have htl : ((create_layer factory n a b none).toList.filter
            (fun l => l.role == r)).length = if (n == r) = true then 1 else 0 := by
          by_cases hnr : (n == r) = true
          · have hn : n = r := by simpa using hnr
            subst hn
            have hfac : factory = some () := by
              rcases hr with hL | hL <;> rw [hL] at hf <;>
                exact (Option.some.inj hf).symm
            subst hfac
            simp [create_layer]
          · rw [if_neg hnr]
            cases factory with
            | none => simp [create_layer]
            | some u => simp [create_layer, hnr]
        rw [List.filter_append, List.length_append, ih ls0 hls0, htl,
          List.filter_cons]
        split_ifs with hb
        · simp [Nat.add_comm]
        · simp

/-- Counting layers by role across the head's outer loop. -/
theorem headBody_count (np dp : Bool) (lo : List String) (r : String)
    (hr : r = "linear" ∨ r = "activation") :
    ∀ (ps : List (Nat × Nat)) (body : List Layer),
      headBody np dp lo ps = Except.ok body →
      (body.filter (fun l => l.role == r)).length =
        ps.length * (lo.filter (fun n => n == r)).length := by
  intro ps
  induction ps with
  | nil =>
    intro body h
    have h' : Except.ok ([] : List Layer) = Except.ok body := h
    injection h' with h'
    subst h'
    simp
  | cons q qs ih =>
    intro body h
    unfold headBody at h
    split at h
    · exact absurd h (by simp)
    case h_2 ls hls =>
      split at h
      · exact absurd h (by simp)
      case h_2 rest0 hrest =>
        injection h with h
        subst h
        rw [List.filter_append, List.length_append,
          headPairLayers_count np dp q.1 q.2 r hr lo ls hls, ih rest0 hrest,
          List.length_cons, Nat.succ_mul]
        exact Nat.add_comm _ _

/-- Inversion of a successful `LinearHead.build`: the body assembled without
error and the network is the body followed by the bare final linear layer. -/
theorem head_build_ok (ic oc : Nat) (lat : List Nat) (lo : List String) (np dp : Bool)
    (h : LinearHead)
    (hok : LinearHead.build ic oc lat lo np dp = Except.ok h) :
    ∃ body, headBody np dp lo (pairwise (ic :: (lat ++ [oc]))).dropLast = Except.ok body ∧
      h.net = body ++
        [⟨"linear", some ((pairwise (ic :: (lat ++ [oc]))).getLastD (0, 0)), none⟩] := by
  rw [build_head_eq] at hok
  split at hok
  · exact absurd hok (by simp)
  case h_2 body hbody =>
    injection hok with hok
    exact ⟨body, hbody, by rw [← hok]⟩

/-! ## Claims -/

/-- C1 counterexample: under the layer order `("conv", "norm", "activation")`
the schedule `(3, 64, 100)` — whose non-stem pair `(64, 100)` has `out_ch` not
an integer multiple of `in_ch` — does NOT raise at assembly time: construction
succeeds, and the conv factory of that block receives the silently truncated
stride `100 // 64 = 1`. -/
theorem c1_counterexample :
    StridedConvEncoder.build [3, 64, 100] ["conv", "norm", "activation"] true false =
      Except.ok ⟨[3, 64, 100],
        [⟨[⟨"conv", some (3, 64), none⟩, ⟨"activation", none, none⟩], false⟩,
         ⟨[⟨"conv", some (64, 100), some 1⟩, ⟨"norm", some (64, 100), none⟩,
           ⟨"activation", some (64, 100), none⟩], false⟩]⟩ := rfl

/-- C1 (amended): a non-integer channel ratio on a non-stem pair does not
raise at assembly time; for every well-formed configuration (registered roles,
nonzero input channels, schedule of length at least two) construction
succeeds, and every conv layer of non-stem block `i` receives the silently
floor-divided stride `out_ch / in_ch` of pair `i` — divisible or not. -/
theorem c1_amended_truncating_stride (sched : List Nat) (lo : List String) (np rp : Bool)
    (hlen : 2 ≤ sched.length)
    (hlo : ∀ n ∈ lo, n = "conv" ∨ n = "norm" ∨ n = "activation")
    (hpos : ∀ p ∈ pairwise sched.tail, p.1 ≠ 0) :
    ∃ e, StridedConvEncoder.build sched lo np rp = Except.ok e ∧
      ∀ (i : Nat) (p : Nat × Nat) (b : Block),
        (pairwise sched.tail).get? i = some p → e.net.get? (i + 1) = some b →
        ∀ l ∈ b.layers, l.role = "conv" → l.stride = some (p.2 / p.1) := by
  obtain ⟨e, he⟩ := build_succeeds sched lo np rp hlen hlo hpos
  refine ⟨e, he, ?_⟩
  rcases build_ok sched lo np rp e he with ⟨c0, c1, blocks, _, _, hb, hE⟩
  subst hE
  intro i p b hp hbq
  have hbq' : blocks.get? i = some b := hbq
  rcases encoderBlocks_get np rp lo _ blocks hb i p hp with ⟨ls, hls, hget⟩
  rw [hbq'] at hget
  injection hget with hget
  subst hget
  intro l hl hrole
  obtain ⟨ls', hls', hprop, _⟩ :=
    encoderBlockLayers_ok np p.1 p.2 (hpos p (List.get?_mem hp)) lo hlo
  rw [hls] at hls'
  injection hls' with hls'
  subst hls'
  exact (hprop l hl).2 hrole

/-- Witness for C1 (amended) at schedule `[3, 64, 100]`: assembly succeeds and
the conv layer of the `(64, 100)` block carries stride `100 / 64 = 1`. -/
theorem c1_witness :
    2 ≤ ([3, 64, 100] : List Nat).length ∧
    ∃ e, StridedConvEncoder.build [3, 64, 100] ["conv", "norm", "activation"] true false =
        Except.ok e ∧
      ∀ (i : Nat) (p : Nat × Nat) (b : Block),
        (pairwise [64, 100]).get? i = some p → e.net.get? (i + 1) = some b →
        ∀ l ∈ b.layers, l.role = "conv" → l.stride = some (p.2 / p.1) :=
  ⟨by decide,
   c1_amended_truncating_stride [3, 64, 100] ["conv", "norm", "activation"] true false
     (by decide) (by decide) (by decide)⟩

/-- C10: a channel-shrinking non-stem pair (`0 < out_ch < in_ch`) under a
layer order including `"conv"` does not make construction fail: the inferred
stride is `out_ch / in_ch = 0` (floor), and `stride = 0` is passed to the conv
factory of that block. -/
theorem c10_stride_zero (sched : List Nat) (lo : List String) (np rp : Bool)
    (i a b : Nat)
    (hlen : 2 ≤ sched.length)
    (hlo : ∀ n ∈ lo, n = "conv" ∨ n = "norm" ∨ n = "activation")
    (hconv : "conv" ∈ lo)
    (hpos : ∀ p ∈ pairwise sched.tail, p.1 ≠ 0)
    (hp : (pairwise sched.tail).get? i = some (a, b))
    (_hlt : 0 < b) (hba : b < a) :
    ∃ e, StridedConvEncoder.build sched lo np rp = Except.ok e ∧
      ∃ blk, e.net.get? (i + 1) = some blk ∧
        (⟨"conv", some (a, b), some 0⟩ : Layer) ∈ blk.layers := by
  obtain ⟨e, he⟩ := build_succeeds sched lo np rp hlen hlo hpos
  refine ⟨e, he, ?_⟩
  rcases build_ok sched lo np rp e he with ⟨c0, c1, blocks, _, _, hb, hE⟩
  subst hE
  rcases encoderBlocks_get np rp lo _ blocks hb i (a, b) hp with ⟨ls, hls, hget⟩
  refine ⟨⟨ls, rp && (a == b)⟩, hget, ?_⟩
  obtain ⟨ls', hls', _, hmem⟩ :=
    encoderBlockLayers_ok np a b (hpos _ (List.get?_mem hp)) lo hlo
  rw [hls] at hls'
  injection hls' with hls'
  subst hls'
  have hz : b / a = 0 := Nat.div_eq_of_lt hba
  have := hmem hconv
  rw [hz] at this
  exact this

/-- Witness for C10 at schedule `[3, 64, 32]`: assembly succeeds and the conv
layer of the `(64, 32)` block carries stride `0`. -/
theorem c10_witness :
    ∃ e, StridedConvEncoder.build [3, 64, 32] ["conv", "norm", "activation"] true false =
        Except.ok e ∧
      ∃ blk, e.net.get? 1 = some blk ∧
        (⟨"conv", some (64, 32), some 0⟩ : Layer) ∈ blk.layers :=
  c10_stride_zero [3, 64, 32] ["conv", "norm", "activation"] true false 0 64 32
    (by decide) (by decide) (by decide) (by decide) rfl (by decide) (by decide)

/-- C2: for every channel schedule accepted by the `StridedConvEncoder`
constructor, `in_channels` returns the first element of the schedule and
`out_channels` the last. -/
theorem c2_channel_properties (sched : List Nat) (lo : List String) (np rp : Bool)
    (e : StridedConvEncoder)
    (h : StridedConvEncoder.build sched lo np rp = Except.ok e) :
    sched.head? = some e.in_channels ∧ sched.getLast? = some e.out_channels := by
  rcases build_ok sched lo np rp e h with ⟨c0, c1, blocks, h0, _, _, he⟩
  cases sched with
  | nil => simp at h0
  | cons a t =>
    subst he
    exact ⟨rfl, getLast?_eq_getLastD_of_ne_nil (a :: t) (by simp)⟩

/-- Witness for C2 at schedule `[3, 64]` (the constructor accepts it and the
properties evaluate to the first and last elements). -/
theorem c2_witness :
    ([3, 64] : List Nat).head? = some 3 ∧ ([3, 64] : List Nat).getLast? = some 64 :=
  c2_channel_properties [3, 64] ["conv", "norm", "activation"] true false
    ⟨[3, 64], [⟨[⟨"conv", some (3, 64), none⟩, ⟨"activation", none, none⟩], false⟩]⟩ rfl

/-- C5 counterexample: an unregistered role name in `layer_order` does NOT
make construction fail when no block applies the layer order — the encoder
with the two-entry schedule `(3, 64)` (stem only) and the head with empty
`latent_channels` (final bare linear only) both construct successfully with
layer order `("bogus",)`. -/
theorem c5_counterexample :
    StridedConvEncoder.build [3, 64] ["bogus"] true false =
      Except.ok ⟨[3, 64],
        [⟨[⟨"conv", some (3, 64), none⟩, ⟨"activation", none, none⟩], false⟩]⟩ ∧
    LinearHead.build 512 1 [] ["bogus"] false false =
      Except.ok ⟨[⟨"linear", some (512, 1), none⟩]⟩ :=
  ⟨rfl, rfl⟩

/-- C6: a channel schedule with fewer than two entries makes
`StridedConvEncoder` construction fail at assembly time (the indexing
`layers[0]` / `layers[1]` in `__init__` raises). -/
theorem c6_short_schedule (sched : List Nat) (lo : List String) (np rp : Bool)
    (h : sched.length < 2) :
    StridedConvEncoder.build sched lo np rp = Except.error PyErr.indexError := by
  match sched with
  | [] => rfl
  | [_] => rfl
  | _ :: _ :: _ => simp only [List.length_cons] at h; omega

/-- Witness for C6 at the one-entry schedule `[3]`. -/
theorem c6_witness :
    ([3] : List Nat).length < 2 ∧
    StridedConvEncoder.build [3] ["conv", "norm", "activation"] true false =
      Except.error PyErr.indexError :=
  ⟨by decide, c6_short_schedule [3] ["conv", "norm", "activation"] true false (by decide)⟩

/-- C7: block 0 of every constructed `StridedConvEncoder` is exactly a conv
layer from `channel_schedule[0]` to `channel_schedule[1]` (no stride keyword)
followed by an activation layer (no arguments), with no normalization layer
and no residual wrapping, for every supplied `layer_order`. -/
theorem c7_stem_block (sched : List Nat) (lo : List String) (np rp : Bool)
    (e : StridedConvEncoder)
    (h : StridedConvEncoder.build sched lo np rp = Except.ok e) :
    e.net.get? 0 = some ⟨[⟨"conv", some (sched.headI, sched.tail.headI), none⟩,
      ⟨"activation", none, none⟩], false⟩ := by
  rcases build_ok sched lo np rp e h with ⟨c0, c1, blocks, h0, h1, _, he⟩
  match sched, h0, h1 with
  | a :: b :: t, h0, h1 =>
    cases h0
    cases h1
    subst he
    rfl

/-- Witness for C7 at schedule `[5, 7]` with a layer order (`("weird",)`) that
the stem ignores. -/
theorem c7_witness :
    (StridedConvEncoder.mk [5, 7]
        [⟨[⟨"conv", some (5, 7), none⟩, ⟨"activation", none, none⟩], false⟩]).net.get? 0 =
      some ⟨[⟨"conv", some (5, 7), none⟩, ⟨"activation", none, none⟩], false⟩ :=
  c7_stem_block [5, 7] ["weird"] false false
    ⟨[5, 7], [⟨[⟨"conv", some (5, 7), none⟩, ⟨"activation", none, none⟩], false⟩]⟩ rfl

/-- C3: a non-stem block of `StridedConvEncoder` is wrapped in the residual
adapter exactly when a residual factory was supplied and the block's input and
output channel counts are equal. -/
theorem c3_residual_wrapping (sched : List Nat) (lo : List String) (np rp : Bool)
    (e : StridedConvEncoder)
    (h : StridedConvEncoder.build sched lo np rp = Except.ok e) :
    ∀ (i : Nat) (p : Nat × Nat) (b : Block),
      (pairwise sched.tail).get? i = some p → e.net.get? (i + 1) = some b →
      (b.wrapped = true ↔ (rp = true ∧ p.1 = p.2)) := by
  rcases build_ok sched lo np rp e h with ⟨c0, c1, blocks, _, _, hb, he⟩
  subst he
  intro i p b hp hbq
  have hbq' : blocks.get? i = some b := hbq
  rcases encoderBlocks_get np rp lo _ blocks hb i p hp with ⟨ls, _, hget⟩
  rw [hbq'] at hget
  injection hget with hget
  subst hget
  simp [Bool.and_eq_true, beq_iff_eq]

/-- Witness for C3: for schedule `[3, 64, 64]` with a residual factory
supplied, the second block (pair `(64, 64)`) is wrapped. -/
theorem c3_witness :
    (Block.mk [⟨"conv", some (64, 64), some 1⟩, ⟨"norm", some (64, 64), none⟩,
        ⟨"activation", some (64, 64), none⟩] true).wrapped = true ↔
      (true = true ∧ (64 : Nat) = 64) :=
  c3_residual_wrapping [3, 64, 64] ["conv", "norm", "activation"] true true
    ⟨[3, 64, 64],
      [⟨[⟨"conv", some (3, 64), none⟩, ⟨"activation", none, none⟩], false⟩,
       ⟨[⟨"conv", some (64, 64), some 1⟩, ⟨"norm", some (64, 64), none⟩,
         ⟨"activation", some (64, 64), none⟩], true⟩]⟩ rfl
    0 (64, 64) _ rfl rfl

/-- C4: in every constructed `LinearHead` the final layer is a bare linear
layer on the final channel pair (nothing follows it: no trailing activation,
normalization or dropout), every non-final pair receives the full layer order
(so the count of `"linear"` layers is `occurrences-in-layer-order` times the
number of non-final pairs, plus one for the bare final linear, and likewise
for `"activation"` without the extra one); consequently with
`latent_channels = (128,)` the default head has exactly two linear layers and
with empty `latent_channels` exactly one, applied directly to the input. -/
theorem c4_linear_head_structure :
    (∀ (ic oc : Nat) (lat : List Nat) (lo : List String) (np dp : Bool) (h : LinearHead),
      LinearHead.build ic oc lat lo np dp = Except.ok h →
      h.net.getLast? =
        some ⟨"linear", some ((pairwise (ic :: (lat ++ [oc]))).getLastD (0, 0)), none⟩ ∧
      (h.net.filter (fun l => l.role == "linear")).length =
        (pairwise (ic :: (lat ++ [oc]))).dropLast.length *
          (lo.filter (fun n => n == "linear")).length + 1 ∧
      (h.net.filter (fun l => l.role == "activation")).length =
        (pairwise (ic :: (lat ++ [oc]))).dropLast.length *
          (lo.filter (fun n => n == "activation")).length) ∧
    (∃ h, LinearHead.build 512 1 [128] ["linear", "activation"] false false = Except.ok h ∧
      (h.net.filter (fun l => l.role == "linear")).length = 2 ∧
      h.net = [⟨"linear", some (512, 128), none⟩, ⟨"activation", some (512, 128), none⟩,
        ⟨"linear", some (128, 1), none⟩]) ∧
    (∃ h, LinearHead.build 512 1 [] ["linear", "activation"] false false = Except.ok h ∧
      (h.net.filter (fun l => l.role == "linear")).length = 1 ∧
      h.net = [⟨"linear", some (512, 1), none⟩]) := by
  refine ⟨?_, ⟨⟨_⟩, rfl, rfl, rfl⟩, ⟨⟨_⟩, rfl, rfl, rfl⟩⟩
  intro ic oc lat lo np dp h hok
  obtain ⟨body, hbody, hnet⟩ := head_build_ok ic oc lat lo np dp h hok
  rw [hnet]
  refine ⟨?_, ?_, ?_⟩
  · rw [List.getLast?_concat]
  · rw [List.filter_append, List.length_append,
      headBody_count np dp lo "linear" (Or.inl rfl) _ body hbody]
    simp
  · rw [List.filter_append, List.length_append,
      headBody_count np dp lo "activation" (Or.inr rfl) _ body hbody]
    simp

/-- Witness for C4 at `in_channels = 512`, `latent_channels = (128,)`,
`out_channels = 1` with the default layer order. -/
theorem c4_witness :
    (LinearHead.mk [⟨"linear", some (512, 128), none⟩, ⟨"activation", some (512, 128), none⟩,
        ⟨"linear", some (128, 1), none⟩]).net.getLast? =
      some ⟨"linear", some (128, 1), none⟩ ∧
    ((LinearHead.mk [⟨"linear", some (512, 128), none⟩, ⟨"activation", some (512, 128), none⟩,
        ⟨"linear", some (128, 1), none⟩]).net.filter
      (fun l => l.role == "linear")).length = 2 ∧
    ((LinearHead.mk [⟨"linear", some (512, 128), none⟩, ⟨"activation", some (512, 128), none⟩,
        ⟨"linear", some (128, 1), none⟩]).net.filter
      (fun l => l.role == "activation")).length = 1 :=
  c4_linear_head_structure.1 512 1 [128] ["linear", "activation"] false false
    ⟨[⟨"linear", some (512, 128), none⟩, ⟨"activation", some (512, 128), none⟩,
      ⟨"linear", some (128, 1), none⟩]⟩ rfl

/-- C5 (amended): an unregistered role in the layer order makes construction
fail during `__init__` — for the encoder as soon as the schedule yields at
least one non-stem block (length at least three), and for the head as soon as
there is at least one latent channel (one non-final pair). -/
theorem c5_amended_unregistered_role :
    (∀ (sched : List Nat) (lo : List String) (np rp : Bool) (name : String),
      name ∈ lo → encoderName2fn np name = none → 3 ≤ sched.length →
      ∃ err, StridedConvEncoder.build sched lo np rp = Except.error err) ∧
    (∀ (ic oc : Nat) (lat : List Nat) (lo : List String) (np dp : Bool) (name : String),
      name ∈ lo → headName2fn np dp name = none → lat ≠ [] →
      ∃ k, LinearHead.build ic oc lat lo np dp = Except.error (PyErr.keyError k)) :=
  ⟨fun sched lo np rp name hmem hreg hlen =>
      encoder_unregistered_err sched lo np rp name hmem hreg hlen,
   fun ic oc lat lo np dp name hmem hreg hlat =>
      head_unregistered_err ic oc lat lo np dp name hmem hreg hlat⟩

/-- Witness for C5 (amended): the role `"bogus"` makes the encoder with
schedule `[3, 64, 64]` and the head with one latent channel fail at assembly
time. -/
theorem c5_amended_witness :
    (∃ err, StridedConvEncoder.build [3, 64, 64] ["bogus"] true false =
      Except.error err) ∧
    (∃ k, LinearHead.build 512 1 [128] ["bogus"] false false =
      Except.error (PyErr.keyError k)) :=
  ⟨c5_amended_unregistered_role.1 [3, 64, 64] ["bogus"] true false "bogus"
     (by decide) rfl (by decide),
   c5_amended_unregistered_role.2 512 1 [128] ["bogus"] false false "bogus"
     (by decide) rfl (by decide)⟩

/-- C8: the forward pass of `VGGConv` equals
`head(flatten(pool(encoder(x))))`, where the flatten step keeps the batch
(first) dimension and collapses all remaining dimensions into one, leaving the
data untouched — for every input whose pooled feature map is non-degenerate
(nonempty shape, nonzero batch and nonzero remaining extent, the cases in
which torch's `view(batch, -1)` is defined). -/
theorem c8_forward_composition (m : VGGConv) (x : Tensor) (d : Nat) (rest : List Nat)
    (hsh : (m.pool (m.encoder x)).shape = d :: rest)
    (hd : d ≠ 0) (hrest : rest.prod ≠ 0) :
    VGGConv.forward m x = Except.ok (m.head (flattenBatch (m.pool (m.encoder x)))) ∧
    (flattenBatch (m.pool (m.encoder x))).shape = [d, rest.prod] ∧
    (flattenBatch (m.pool (m.encoder x))).data = (m.pool (m.encoder x)).data := by
  have hnumel : (m.pool (m.encoder x)).numel = d * rest.prod := by
    rw [Tensor.numel, hsh, List.prod_cons]
  have hz0 : (m.pool (m.encoder x)).numel ≠ 0 := by
    rw [hnumel]; exact Nat.mul_ne_zero hd hrest
  have hmod : (m.pool (m.encoder x)).numel % d = 0 := by
    rw [hnumel]; exact Nat.mul_mod_right _ _
  have hview : (m.pool (m.encoder x)).view2 d =
      Except.ok ⟨[d, rest.prod], (m.pool (m.encoder x)).data⟩ := by
    have hcond : ¬(d = 0 ∨ (m.pool (m.encoder x)).numel = 0 ∨
        (m.pool (m.encoder x)).numel % d ≠ 0) := by
      push_neg
      exact ⟨hd, hz0, hmod⟩
    unfold Tensor.view2
    rw [if_neg hcond, hnumel, Nat.mul_div_cancel_left _ (Nat.pos_of_ne_zero hd)]
  have hflat : flattenBatch (m.pool (m.encoder x)) =
      ⟨[d, rest.prod], (m.pool (m.encoder x)).data⟩ := by
    unfold flattenBatch
    rw [hsh]
    rfl
  refine ⟨?_, by rw [hflat], by rw [hflat]⟩
  rw [hflat]
  show (match (m.pool (m.encoder x)).shape.head? with
    | none => Except.error "IndexError"
    | some dd =>
      match (m.pool (m.encoder x)).view2 dd with
      | Except.error e => Except.error e
      | Except.ok v => Except.ok (m.head v)) =
    Except.ok (m.head ⟨[d, rest.prod], (m.pool (m.encoder x)).data⟩)
  rw [hsh]
  show (match (m.pool (m.encoder x)).view2 d with
    | Except.error e => Except.error e
    | Except.ok v => Except.ok (m.head v)) =
    Except.ok (m.head ⟨[d, rest.prod], (m.pool (m.encoder x)).data⟩)
  rw [hview]

/-- Witness for C8: identity encoder, pool and head on a `2 × 3` input. -/
theorem c8_witness :
    VGGConv.forward ⟨fun t => t, fun t => t, fun t => t⟩ ⟨[2, 3], [1, 2, 3, 4, 5, 6]⟩ =
      Except.ok (flattenBatch ⟨[2, 3], [1, 2, 3, 4, 5, 6]⟩) ∧
    (flattenBatch (⟨[2, 3], [1, 2, 3, 4, 5, 6]⟩ : Tensor)).shape = [2, 3] ∧
    (flattenBatch (⟨[2, 3], [1, 2, 3, 4, 5, 6]⟩ : Tensor)).data = [1, 2, 3, 4, 5, 6] :=
  c8_forward_composition ⟨fun t => t, fun t => t, fun t => t⟩
    ⟨[2, 3], [1, 2, 3, 4, 5, 6]⟩ 2 [3] rfl (by decide) (by decide)

/-- C9: during `VGGConv` construction the external initialization routine is
invoked exactly once, after the encoder, pool and head are stored (it is the
final statement of `__init__`), and the forward pass never invokes it. -/
theorem c9_single_initialization :
    VGGConv.initTrace.count TraceEvent.netInitCall = 1 ∧
    VGGConv.initTrace.getLast? = some TraceEvent.netInitCall ∧
    TraceEvent.netInitCall ∉ VGGConv.forwardTrace := by
  refine ⟨rfl, rfl, ?_⟩
  decide

end Esrgan
